import Mathlib

/-!
Verification development for the YDB driver adapter core.

The definitions below are a shallow embedding of the adapter's source:
the bounded session pool (`YdbSessionPool` with its FIFO wait queue:
`obtainSession`, `createRelease`, `fulfillPending`, `trimExcess`,
`evictExpired`), the transaction manager (`require`, `commit`, `rollback`,
`finish`), the result normalizer (`collect`, `calculateRowsAffected`,
`normalizeStats`) and the YQL query preparer (`prepare`,
`extractSegments`).  Backend collaborators (the network driver, the value
codec of the driver library) are modelled as parameters or as a
deterministic session-id supply.  JavaScript arrays keep their source
semantics: `push` appends at the end, `pop` takes the last element,
`shift` removes the head, `splice(0, k)` drops the first `k` elements.
`Math.max(0, n - 1)` is natural-number subtraction.
-/

namespace Pool

/-- A backend session, extended with the `lastUsed` timestamp
(`ManagedSession` in the source).  Session ids delivered by the backend
are modelled by a deterministic counter, node ids by `0`. -/
structure ManagedSession where
  sessionId : Nat
  nodeId : Nat
  lastUsed : Nat
deriving Repr, DecidableEq

/-- `SessionPoolOptions` after defaulting (`maxSize ?? 20`,
`idleTimeoutMs ?? 30_000`). -/
structure PoolConfig where
  maxSize : Nat
  idleTimeoutMs : Nat
deriving Repr, DecidableEq

/-- The mutable fields of `YdbSessionPool`, together with bookkeeping that
records the pool's observable interactions: sessions handed to the
backend `delete` call (`destroyed`) and wait-queue resolutions
(`served`, in resolution order).  `pendingAcquires` keeps waiter ids in
arrival order (head = oldest, as `push`/`shift` do); `nextSessionId` is
the deterministic supply standing in for backend session creation, so it
also counts how many sessions were ever created. -/
structure PoolState where
  idleSessions : List ManagedSession
  totalSessions : Nat
  pendingAcquires : List Nat
  nextSessionId : Nat
  destroyed : List Nat
  served : List (Nat × ManagedSession)
deriving Repr, DecidableEq

/-- The freshly constructed pool. -/
def PoolState.empty : PoolState := ⟨[], 0, [], 0, [], []⟩

/-- JS `array.pop()`: removes and returns the last element. -/
def arrayPop (l : List ManagedSession) : Option (ManagedSession × List ManagedSession) :=
  match l.getLast? with
  | none => none
  | some s => some (s, l.dropLast)

/-- `manager.create()` as seen by the pool: the backend returns a fresh
session; modelled by the deterministic id counter. -/
def freshSession (st : PoolState) (now : Nat) : ManagedSession :=
  ⟨st.nextSessionId, 0, now⟩

/-- `fulfillPending`: while callers wait, hand each one an idle session,
or create a replacement while `totalSessions < maxSize`; stop when the
pool is saturated and no idle session remains. -/
def fulfillPending (cfg : PoolConfig) (st : PoolState) (now : Nat) : PoolState :=
  match h : st.pendingAcquires with
  | [] => st
  | w :: ws =>
    match arrayPop st.idleSessions with
    | some (s, rest) =>
      let s' := { s with lastUsed := now }
      fulfillPending cfg
        { st with idleSessions := rest, pendingAcquires := ws,
                  served := st.served ++ [(w, s')] } now
    | none =>
      if cfg.maxSize ≤ st.totalSessions then st
      else
        let created := freshSession st now
        fulfillPending cfg
          { st with totalSessions := st.totalSessions + 1,
                    nextSessionId := st.nextSessionId + 1,
                    pendingAcquires := ws,
                    served := st.served ++ [(w, created)] } now
termination_by st.pendingAcquires.length
decreasing_by all_goals simp [h]

/-- `evictExpired`: drop idle sessions whose age exceeds
`idleTimeoutMs` (`now - lastUsed > idleTimeoutMs`), destroy them, then
try to fulfill waiting callers. -/
def evictExpired (cfg : PoolConfig) (st : PoolState) (now : Nat) : PoolState :=
  if st.idleSessions.length = 0 then st
  else
    let expired := st.idleSessions.filter (fun s => cfg.idleTimeoutMs + s.lastUsed < now)
    let active := st.idleSessions.filter (fun s => ¬ (cfg.idleTimeoutMs + s.lastUsed < now))
    let st₁ := { st with idleSessions := active }
    if 0 < expired.length then
      fulfillPending cfg
        { st₁ with totalSessions := st₁.totalSessions - expired.length,
                   destroyed := st₁.destroyed ++ expired.map (·.sessionId) } now
    else st₁

/-- The two ways `obtainSession` can leave a caller: holding a session,
or suspended on the wait queue. -/
inductive ObtainResult where
  | granted (s : ManagedSession)
  | enqueued (waiter : Nat)
deriving Repr, DecidableEq

/-- `obtainSession`: evict expired idle sessions, pop an idle session if
any, else create one while under `maxSize`, else enqueue the caller
(FIFO). -/
def obtainSession (cfg : PoolConfig) (st : PoolState) (now : Nat) (waiter : Nat) :
    ObtainResult × PoolState :=
  let st := evictExpired cfg st now
  match arrayPop st.idleSessions with
  | some (s, rest) =>
    (.granted { s with lastUsed := now }, { st with idleSessions := rest })
  | none =>
    if st.totalSessions < cfg.maxSize then
      (.granted (freshSession st now),
        { st with totalSessions := st.totalSessions + 1,
                  nextSessionId := st.nextSessionId + 1 })
    else
      (.enqueued waiter, { st with pendingAcquires := st.pendingAcquires ++ [waiter] })

/-- `trimExcess`: when the idle set exceeds `maxSize`, destroy the
oldest-inserted overflow (`splice(0, overflowCount)`). -/
def trimExcess (cfg : PoolConfig) (st : PoolState) : PoolState :=
  if st.totalSessions ≤ cfg.maxSize ∧ st.idleSessions.length ≤ cfg.maxSize then st
  else
    let overflowCount := st.idleSessions.length - cfg.maxSize
    if overflowCount = 0 then st
    else
      let overflow := st.idleSessions.take overflowCount
      { st with idleSessions := st.idleSessions.drop overflowCount,
                totalSessions := st.totalSessions - overflowCount,
                destroyed := st.destroyed ++ overflow.map (·.sessionId) }

/-- The body of the closure returned by `createRelease`, past the
one-shot guard.  `err` is the truthiness of the `error` argument. -/
def releaseBody (cfg : PoolConfig) (st : PoolState) (s : ManagedSession) (err : Bool)
    (now : Nat) : PoolState :=
  if err then
    fulfillPending cfg
      { st with destroyed := st.destroyed ++ [s.sessionId],
                totalSessions := st.totalSessions - 1 } now
  else
    let s' := { s with lastUsed := now }
    match st.pendingAcquires with
    | w :: ws => { st with pendingAcquires := ws, served := st.served ++ [(w, s')] }
    | [] => trimExcess cfg { st with idleSessions := st.idleSessions ++ [s'] }

/-- One call of the release closure: `released` is the closure's captured
flag before the call; the returned flag is its value afterwards.  A call
with the flag already set is a no-op. -/
def releaseCall (cfg : PoolConfig) (st : PoolState) (released : Bool) (s : ManagedSession)
    (err : Bool) (now : Nat) : PoolState × Bool :=
  if released then (st, released)
  else (releaseBody cfg st s err now, true)

/-- `count` successive `acquire` calls (each calling `obtainSession`),
with waiter ids threaded from `wid`. -/
def acquireMany (cfg : PoolConfig) (now : Nat) : Nat → PoolState → Nat → PoolState
  | 0, st, _ => st
  | Nat.succ k, st, wid => acquireMany cfg now k (obtainSession cfg st now wid).2 (wid + 1)

/-- States reached while acquiring from a fresh pool: no idle sessions,
`nextSessionId` equal to the number of live sessions, nothing destroyed
or served yet. -/
def midState (t : Nat) (p : List Nat) : PoolState := ⟨[], t, p, t, [], []⟩

lemma obtainSession_midState (cfg : PoolConfig) (now w t : Nat) (p : List Nat) :
    obtainSession cfg (midState t p) now w =
      if t < cfg.maxSize then (.granted ⟨t, 0, now⟩, midState (t + 1) p)
      else (.enqueued w, midState t (p ++ [w])) := by
  simp only [obtainSession, evictExpired, midState, freshSession, arrayPop]
  split <;> simp_all

lemma acquireMany_midState (cfg : PoolConfig) (now : Nat) :
    ∀ (j t : Nat) (p : List Nat) (w₀ : Nat), t ≤ cfg.maxSize →
      acquireMany cfg now j (midState t p) w₀ =
        midState (min (t + j) cfg.maxSize)
          (p ++ List.range' (w₀ + (cfg.maxSize - t)) (j - (cfg.maxSize - t))) := by
  intro j
  induction j with
  | zero =>
    intro t p w₀ ht
    simp [acquireMany, Nat.min_eq_left ht]
  | succ k ih =>
    intro t p w₀ ht
    rw [acquireMany, obtainSession_midState]
    by_cases h : t < cfg.maxSize
    · rw [if_pos h, ih (t + 1) p (w₀ + 1) h]
      have h₁ : t + 1 + k = t + (k + 1) := by omega
      have h₂ : w₀ + 1 + (cfg.maxSize - (t + 1)) = w₀ + (cfg.maxSize - t) := by omega
      have h₃ : k - (cfg.maxSize - (t + 1)) = k + 1 - (cfg.maxSize - t) := by omega
      rw [h₁, h₂, h₃]
    · have ht' : cfg.maxSize - t = 0 := by omega
      rw [if_neg h, ih t (p ++ [w₀]) (w₀ + 1) ht, ht']
      simp only [Nat.add_zero, Nat.sub_zero, List.append_assoc, List.singleton_append]
      rw [← List.range'_succ]
      congr 1
      omega

lemma fulfillPending_total_le (cfg : PoolConfig) :
    ∀ (n : Nat) (st : PoolState) (now : Nat), st.pendingAcquires.length ≤ n →
      st.totalSessions ≤ cfg.maxSize →
      (fulfillPending cfg st now).totalSessions ≤ cfg.maxSize := by
  intro n
  induction n with
  | zero =>
    intro st now hlen h
    rw [fulfillPending.eq_def]
    split
    · exact h
    · rename_i w ws hp
      rw [hp] at hlen
      simp at hlen
  | succ n ih =>
    intro st now hlen h
    rw [fulfillPending.eq_def]
    split
    · exact h
    · rename_i w ws hp
      rw [hp] at hlen
      split
      · rename_i s rest hpop
        exact ih _ now (by simpa using Nat.le_of_succ_le_succ hlen) (by simpa using h)
      · split
        · exact h
        · rename_i hsat
          exact ih _ now (by simpa using Nat.le_of_succ_le_succ hlen)
            (by simp at hsat ⊢; omega)

lemma evictExpired_total_le (cfg : PoolConfig) (st : PoolState) (now : Nat)
    (h : st.totalSessions ≤ cfg.maxSize) :
    (evictExpired cfg st now).totalSessions ≤ cfg.maxSize := by
  simp only [evictExpired]
  split
  · exact h
  · split
    · exact fulfillPending_total_le cfg _ _ now le_rfl (by simp; omega)
    · exact h

lemma obtainSession_total_le (cfg : PoolConfig) (st : PoolState) (now w : Nat)
    (h : st.totalSessions ≤ cfg.maxSize) :
    ((obtainSession cfg st now w).2).totalSessions ≤ cfg.maxSize := by
  have he := evictExpired_total_le cfg st now h
  simp only [obtainSession]
  split
  · rename_i s rest hpop
    simpa using he
  · split
    · rename_i hlt
      simpa using hlt
    · simpa using he

lemma trimExcess_total_le (cfg : PoolConfig) (st : PoolState)
    (h : st.totalSessions ≤ cfg.maxSize) :
    (trimExcess cfg st).totalSessions ≤ cfg.maxSize := by
  simp only [trimExcess]
  split
  · exact h
  · split
    · exact h
    · simp
      omega

lemma releaseCall_total_le (cfg : PoolConfig) (st : PoolState) (rel : Bool)
    (s : ManagedSession) (e : Bool) (now : Nat) (h : st.totalSessions ≤ cfg.maxSize) :
    ((releaseCall cfg st rel s e now).1).totalSessions ≤ cfg.maxSize := by
  rw [releaseCall]
  split
  · exact h
  · simp only [releaseBody]
    split
    · exact fulfillPending_total_le cfg _ _ now le_rfl (by simp; omega)
    · split
      · simpa using h
      · exact trimExcess_total_le _ _ (by simpa using h)

end Pool

/-- C1: with `maxSize = N`, issuing `N + K` acquire calls against a fresh
pool while none are released creates exactly `N` backend sessions
(`nextSessionId = N`, none destroyed) and leaves the `K` later callers
(waiter ids `N, …, N + K - 1`) queued in arrival order; moreover the
pool's session count (idle plus on-loan, `totalSessions`) never exceeds
`maxSize`: it is `N` after the scenario and is preserved below `maxSize`
by every `obtainSession` and every release-closure call. -/
theorem pool_bounded_acquires_c1 (cfg : Pool.PoolConfig) (K now : Nat) :
    (Pool.acquireMany cfg now (cfg.maxSize + K) Pool.PoolState.empty 0).totalSessions
        = cfg.maxSize ∧
    (Pool.acquireMany cfg now (cfg.maxSize + K) Pool.PoolState.empty 0).nextSessionId
        = cfg.maxSize ∧
    (Pool.acquireMany cfg now (cfg.maxSize + K) Pool.PoolState.empty 0).pendingAcquires
        = List.range' cfg.maxSize K ∧
    (Pool.acquireMany cfg now (cfg.maxSize + K) Pool.PoolState.empty 0).destroyed = [] ∧
    (∀ st w now', st.totalSessions ≤ cfg.maxSize →
      ((Pool.obtainSession cfg st now' w).2).totalSessions ≤ cfg.maxSize) ∧
    (∀ st rel s e now', st.totalSessions ≤ cfg.maxSize →
      ((Pool.releaseCall cfg st rel s e now').1).totalSessions ≤ cfg.maxSize) := by
  have hempty : Pool.PoolState.empty = Pool.midState 0 [] := rfl
  have h := Pool.acquireMany_midState cfg now (cfg.maxSize + K) 0 [] 0 (Nat.zero_le _)
  rw [hempty, h]
  refine ⟨by simp [Pool.midState] <;> omega, by simp [Pool.midState] <;> omega,
    by simp [Pool.midState] <;> (congr 1 <;> omega), by simp [Pool.midState],
    fun st w now' hst => Pool.obtainSession_total_le cfg st now' w hst,
    fun st rel s e now' hst => Pool.releaseCall_total_le cfg st rel s e now' hst⟩

/-- C2: an error-free call of a not-yet-used release closure while the
wait queue is nonempty hands the released session directly to the
first-queued waiter: the waiter is resolved with the very session being
released (same `sessionId`, `lastUsed` refreshed), the idle set is not
touched, no session is created (`nextSessionId` unchanged) or destroyed,
and the waiter taken is the head of the FIFO queue; two successive
error-free releases serve the first two waiters in arrival order. -/
theorem release_serves_first_waiter_c2 (cfg : Pool.PoolConfig) (st : Pool.PoolState)
    (s : Pool.ManagedSession) (now w : Nat) (ws : List Nat)
    (h : st.pendingAcquires = w :: ws) :
    Pool.releaseCall cfg st false s false now =
      ({ st with pendingAcquires := ws,
                 served := st.served ++ [(w, { s with lastUsed := now })] }, true) ∧
    (Pool.releaseCall cfg st false s false now).1.idleSessions = st.idleSessions ∧
    (Pool.releaseCall cfg st false s false now).1.nextSessionId = st.nextSessionId ∧
    (Pool.releaseCall cfg st false s false now).1.destroyed = st.destroyed ∧
    (∀ w' ws' (s₂ : Pool.ManagedSession) (now₂ : Nat), st.pendingAcquires = w :: w' :: ws' →
      ((Pool.releaseCall cfg (Pool.releaseCall cfg st false s false now).1 false s₂ false
          now₂).1).served
        = st.served ++ [(w, { s with lastUsed := now }),
                        (w', { s₂ with lastUsed := now₂ })]) := by
  have hmain : Pool.releaseCall cfg st false s false now =
      ({ st with pendingAcquires := ws,
                 served := st.served ++ [(w, { s with lastUsed := now })] }, true) := by
    simp [Pool.releaseCall, Pool.releaseBody, h]
  refine ⟨hmain, by rw [hmain], by rw [hmain], by rw [hmain], ?_⟩
  intro w' ws' s₂ now₂ h₂
  rw [h] at h₂
  cases h₂
  rw [hmain]
  simp [Pool.releaseCall, Pool.releaseBody]

/-- Witness for C2 at a concrete pool state with two queued waiters. -/
theorem release_serves_first_waiter_c2_witness :
    Pool.releaseCall ⟨1, 30000⟩ ⟨[], 1, [7, 8], 1, [], []⟩ false ⟨0, 0, 3⟩ false 10 =
      ({ idleSessions := [], totalSessions := 1, pendingAcquires := [8],
         nextSessionId := 1, destroyed := [],
         served := [(7, ⟨0, 0, 10⟩)] }, true) :=
  (release_serves_first_waiter_c2 ⟨1, 30000⟩ ⟨[], 1, [7, 8], 1, [], []⟩ ⟨0, 0, 3⟩ 10 7 [8]
    rfl).1

/-- C9: the release closure is one-shot.  Calling it a second time (with
any error argument and at any time) returns the pool state of the first
call unchanged — same idle set, total count, wait queue, and destroyed
list — and a call whose captured flag is already set never changes the
state. -/
theorem release_idempotent_c9 (cfg : Pool.PoolConfig) (st : Pool.PoolState)
    (s s₂ : Pool.ManagedSession) (e₁ e₂ : Bool) (now₁ now₂ : Nat) :
    Pool.releaseCall cfg (Pool.releaseCall cfg st false s e₁ now₁).1
        (Pool.releaseCall cfg st false s e₁ now₁).2 s₂ e₂ now₂
      = ((Pool.releaseCall cfg st false s e₁ now₁).1, true) ∧
    (∀ st' (s' : Pool.ManagedSession) e now, Pool.releaseCall cfg st' true s' e now
      = (st', true)) := by
  constructor
  · rw [Pool.releaseCall]
    simp [Pool.releaseCall]
  · intro st' s' e now
    rw [Pool.releaseCall]
    simp

namespace TxMgr

/-- `StatusIds_StatusCode.SUCCESS` of the backend protocol. -/
def SUCCESS : Nat := 400000

/-- `YdbTransactionIsolation`. -/
inductive Isolation where
  | serializableReadWrite
  | snapshotReadOnly
deriving Repr, DecidableEq

/-- The data of a `TransactionContext` (its pinned session identified by
`sessionId`/`nodeId`; the `release` closure's effect is recorded in
`TxState.releaseCalls`). -/
structure TransactionContext where
  txId : String
  sessionId : Nat
  nodeId : Nat
  isolation : Isolation
deriving Repr, DecidableEq

/-- The manager's state: the live `txId -> context` map (insertion
order, unique keys, as a JS `Map`) plus a record of every invocation of
a pinned session's release closure — `(sessionId, withError)` in call
order. -/
structure TxState where
  transactions : List (String × TransactionContext)
  releaseCalls : List (Nat × Bool)
deriving Repr, DecidableEq

/-- JS `Map.get`. -/
def mapGet (m : List (String × TransactionContext)) (k : String) :
    Option TransactionContext :=
  (m.find? (fun e => e.1 = k)).map (·.2)

/-- JS `Map.delete`. -/
def mapDelete (m : List (String × TransactionContext)) (k : String) :
    List (String × TransactionContext) :=
  m.filter (fun e => decide (e.1 = k) = false)

/-- Outcome of one backend `commitTransaction`/`rollbackTransaction`
round trip: the call returned a status (with issues), or threw. -/
inductive CallOutcome where
  | ok (status : Nat) (issues : List String)
  | threw (msg : String)
deriving Repr, DecidableEq

/-- Errors surfaced by the transaction manager. -/
inductive TmError where
  | unknownTransaction (txId : String)
  | ydbError (status : Nat) (issues : List String)
  | thrown (msg : String)
deriving Repr, DecidableEq

/-- `require(txId)`: look the context up, fail with the
`Transaction ... was not found or already finished` error if absent. -/
def require (st : TxState) (txId : String) : Except TmError TransactionContext :=
  match mapGet st.transactions txId with
  | none => .error (.unknownTransaction txId)
  | some tx => .ok tx

/-- `finish(txId, forceError)`: drop the context from the live map and
invoke the pinned session's release closure (with an error exactly when
`forceError`).  A `txId` already absent is a no-op. -/
def finish (st : TxState) (txId : String) (forceError : Bool) : TxState :=
  match mapGet st.transactions txId with
  | none => st
  | some tx =>
    { transactions := mapDelete st.transactions txId,
      releaseCalls := st.releaseCalls ++ [(tx.sessionId, forceError)] }

/-- `commit(txId)`: `require` the context, issue the backend commit and,
in a `finally`, `finish` the transaction.  A non-`SUCCESS` status throws
`YDBError`; an exception of the call itself propagates; both after the
cleanup ran. -/
def commit (st : TxState) (txId : String) (backend : CallOutcome) :
    TxState × Except TmError Unit :=
  match require st txId with
  | .error e => (st, .error e)
  | .ok _ =>
    let st' := finish st txId false
    match backend with
    | .ok s issues => if s = SUCCESS then (st', .ok ()) else (st', .error (.ydbError s issues))
    | .threw m => (st', .error (.thrown m))

/-- `rollback(txId)`: like `commit` but the status of the backend
rollback call is not inspected; only an exception of the call itself
propagates (after the `finally` cleanup). -/
def rollback (st : TxState) (txId : String) (backend : CallOutcome) :
    TxState × Except TmError Unit :=
  match require st txId with
  | .error e => (st, .error e)
  | .ok _ =>
    let st' := finish st txId false
    match backend with
    | .ok _ _ => (st', .ok ())
    | .threw m => (st', .error (.thrown m))

lemma mapGet_mapDelete (m : List (String × TransactionContext)) (k : String) :
    mapGet (mapDelete m k) k = none := by
  induction m with
  | nil => rfl
  | cons e rest ih =>
    by_cases he : e.1 = k
    · simpa [mapDelete, he] using ih
    · simpa [mapDelete, mapGet, he] using ih

/-- The value `commit` settles with, as a function of the backend
outcome. -/
def commitResult : CallOutcome → Except TmError Unit
  | .ok s issues => if s = SUCCESS then .ok () else .error (.ydbError s issues)
  | .threw m => .error (.thrown m)

lemma commit_eq_of_some {st : TxState} {txId : String} {tx : TransactionContext}
    (h : mapGet st.transactions txId = some tx) (o : CallOutcome) :
    commit st txId o =
      ({ transactions := mapDelete st.transactions txId,
         releaseCalls := st.releaseCalls ++ [(tx.sessionId, false)] }, commitResult o) := by
  cases o with
  | ok s issues =>
    by_cases hs : s = SUCCESS <;> simp [commit, require, finish, h, commitResult, hs]
  | threw m => simp [commit, require, finish, h, commitResult]

lemma rollback_eq_of_some {st : TxState} {txId : String} {tx : TransactionContext}
    (h : mapGet st.transactions txId = some tx) (o : CallOutcome) :
    rollback st txId o =
      ({ transactions := mapDelete st.transactions txId,
         releaseCalls := st.releaseCalls ++ [(tx.sessionId, false)] },
       match o with
       | .ok _ _ => .ok ()
       | .threw m => .error (.thrown m)) := by
  cases o with
  | ok s issues => simp [rollback, require, finish, h]
  | threw m => simp [rollback, require, finish, h]

end TxMgr

/-- C3: commit/rollback on a `txId` absent from the live map fail with
the unknown-transaction error and leave the state untouched; and once a
live transaction is finished by a commit (or rollback) — whatever the
backend outcome — its `txId` is gone from the map, so any further
commit or rollback on it fails with the unknown-transaction error and
changes nothing: no transition leaves a finished transaction. -/
theorem tx_terminal_states_c3 (st : TxMgr.TxState) (txId : String)
    (o o' : TxMgr.CallOutcome) :
    (TxMgr.mapGet st.transactions txId = none →
      TxMgr.commit st txId o = (st, .error (.unknownTransaction txId)) ∧
      TxMgr.rollback st txId o = (st, .error (.unknownTransaction txId))) ∧
    (∀ tx, TxMgr.mapGet st.transactions txId = some tx →
      TxMgr.mapGet (TxMgr.commit st txId o).1.transactions txId = none ∧
      TxMgr.commit (TxMgr.commit st txId o).1 txId o' =
        ((TxMgr.commit st txId o).1, .error (.unknownTransaction txId)) ∧
      TxMgr.rollback (TxMgr.rollback st txId o).1 txId o' =
        ((TxMgr.rollback st txId o).1, .error (.unknownTransaction txId))) := by
  constructor
  · intro h
    constructor <;> cases o <;> simp [TxMgr.commit, TxMgr.rollback, TxMgr.require, h]
  · intro tx h
    have hc := TxMgr.commit_eq_of_some h o
    have hr := TxMgr.rollback_eq_of_some h o
    have hnone : TxMgr.mapGet (TxMgr.mapDelete st.transactions txId) txId = none :=
      TxMgr.mapGet_mapDelete st.transactions txId
    refine ⟨by rw [hc]; exact hnone, ?_, ?_⟩
    · rw [hc]
      cases o' <;> simp [TxMgr.commit, TxMgr.require, hnone]
    · rw [hr]
      cases o' <;> simp [TxMgr.rollback, TxMgr.require, hnone]

/-- Witness for C3: a live transaction committed once cannot be
committed again. -/
theorem tx_terminal_states_c3_witness :
    TxMgr.commit
        (TxMgr.commit ⟨[("t1", ⟨"t1", 4, 0, .serializableReadWrite⟩)], []⟩ "t1"
          (.ok 400000 [])).1 "t1" (.ok 400000 []) =
      ((TxMgr.commit ⟨[("t1", ⟨"t1", 4, 0, .serializableReadWrite⟩)], []⟩ "t1"
          (.ok 400000 [])).1, .error (.unknownTransaction "t1")) :=
  ((tx_terminal_states_c3 ⟨[("t1", ⟨"t1", 4, 0, .serializableReadWrite⟩)], []⟩ "t1"
    (.ok 400000 []) (.ok 400000 [])).2 ⟨"t1", 4, 0, .serializableReadWrite⟩ rfl).2.1

/-- C4: on a live transaction, `commit` always performs its cleanup: for
every backend outcome (success, non-success status, or thrown error) the
`txId` is removed from the live map and the pinned session's release
closure is invoked (without error), and when the backend commit did not
succeed the corresponding error is still the one returned to the caller
after that cleanup. -/
theorem tx_commit_cleanup_c4 (st : TxMgr.TxState) (txId : String)
    (tx : TxMgr.TransactionContext) (o : TxMgr.CallOutcome)
    (h : TxMgr.mapGet st.transactions txId = some tx) :
    (TxMgr.commit st txId o).1.transactions = TxMgr.mapDelete st.transactions txId ∧
    (TxMgr.commit st txId o).1.releaseCalls = st.releaseCalls ++ [(tx.sessionId, false)] ∧
    TxMgr.mapGet (TxMgr.commit st txId o).1.transactions txId = none ∧
    (TxMgr.commit st txId o).2 = TxMgr.commitResult o ∧
    (∀ s issues, o = .ok s issues → s ≠ TxMgr.SUCCESS →
      (TxMgr.commit st txId o).2 = .error (.ydbError s issues)) ∧
    (∀ m, o = .threw m → (TxMgr.commit st txId o).2 = .error (.thrown m)) := by
  have hc := TxMgr.commit_eq_of_some h o
  refine ⟨by rw [hc], by rw [hc], by rw [hc]; exact TxMgr.mapGet_mapDelete _ _,
    by rw [hc], ?_, ?_⟩
  · intro s issues ho hs
    subst ho
    rw [hc]
    simp [TxMgr.commitResult, hs]
  · intro m ho
    subst ho
    rw [hc]
    simp [TxMgr.commitResult]

/-- Witness for C4: a backend commit that reports a non-success status
still removes the transaction and releases the session, and the status
error is returned. -/
theorem tx_commit_cleanup_c4_witness :
    (TxMgr.commit ⟨[("t1", ⟨"t1", 4, 0, .serializableReadWrite⟩)], []⟩ "t1"
        (.ok 400010 ["overloaded"])).1.releaseCalls = [(4, false)] ∧
    (TxMgr.commit ⟨[("t1", ⟨"t1", 4, 0, .serializableReadWrite⟩)], []⟩ "t1"
        (.ok 400010 ["overloaded"])).2 = .error (.ydbError 400010 ["overloaded"]) := by
  have h := tx_commit_cleanup_c4 ⟨[("t1", ⟨"t1", 4, 0, .serializableReadWrite⟩)], []⟩ "t1"
    ⟨"t1", 4, 0, .serializableReadWrite⟩ (.ok 400010 ["overloaded"]) rfl
  exact ⟨h.2.1, h.2.2.2.2.1 400010 ["overloaded"] rfl (by decide)⟩

/-- C10: on a live transaction, `rollback` never fails because of a
non-success backend status: whenever the backend rollback call returns —
whatever status it carries — `rollback` completes normally, removing the
`txId` from the live map and releasing the pinned session without
surfacing the status to the caller. -/
theorem tx_rollback_ignores_status_c10 (st : TxMgr.TxState) (txId : String)
    (tx : TxMgr.TransactionContext) (s : Nat) (issues : List String)
    (h : TxMgr.mapGet st.transactions txId = some tx) :
    TxMgr.rollback st txId (.ok s issues) =
      ({ transactions := TxMgr.mapDelete st.transactions txId,
         releaseCalls := st.releaseCalls ++ [(tx.sessionId, false)] }, .ok ()) :=
  TxMgr.rollback_eq_of_some h (.ok s issues)

/-- Witness for C10: a rollback whose backend call reports a non-success
status still completes normally. -/
theorem tx_rollback_ignores_status_c10_witness :
    TxMgr.rollback ⟨[("t1", ⟨"t1", 4, 0, .serializableReadWrite⟩)], []⟩ "t1"
        (.ok 400010 ["aborted"]) =
      ({ transactions := [], releaseCalls := [(4, false)] }, .ok ()) := by
  have h := tx_rollback_ignores_status_c10 ⟨[("t1", ⟨"t1", 4, 0, .serializableReadWrite⟩)], []⟩
    "t1" ⟨"t1", 4, 0, .serializableReadWrite⟩ 400010 ["aborted"] rfl
  simpa [TxMgr.mapDelete] using h

namespace Norm

/-- `StatusIds_StatusCode.SUCCESS`. -/
def SUCCESS : Nat := 400000

/-- `Number.MAX_SAFE_INTEGER`. -/
def MAX_SAFE_INTEGER : Nat := 2 ^ 53 - 1

/-- The Prisma `ColumnTypeEnum` values produced by the adapter. -/
inductive ColumnType where
  | text | int32 | int64 | boolean | float | double | numeric | date | dateTime
  | json | bytes
deriving Repr, DecidableEq

/-- `YqlTypeMapper.toPrismaColumnType`: backend type name to Prisma
column type. -/
def toPrismaColumnType (ydbType : String) : ColumnType :=
  match ydbType with
  | "Utf8" | "String" | "Text" => .text
  | "Int8" | "Int16" | "Int32" | "Uint8" | "Uint16" | "Uint32" => .int32
  | "Int64" | "Uint64" => .int64
  | "Bool" => .boolean
  | "Float" => .float
  | "Double" => .double
  | "Decimal" => .numeric
  | "Date" => .date
  | "Datetime" | "Timestamp" => .dateTime
  | "Json" | "JsonDocument" => .json
  | "Bytes" | "DyNumber" => .bytes
  | _ => .text

/-- A JavaScript value, as the stats normalizer sees the `execStats`
proto object: primitives, bigints, strings, functions, arrays and plain
objects (field list in property order). -/
inductive JsVal where
  | nullv
  | undef
  | boolv (b : Bool)
  | num (n : Int)
  | bigintv (n : Int)
  | str (s : String)
  | fn
  | arr (elems : List JsVal)
  | obj (fields : List (String × JsVal))

/-- `typeof v === 'function'`. -/
def JsVal.isFn : JsVal → Bool
  | .fn => true
  | _ => false

/-- JS property access `v.k` (an `undefined` result is `none`). -/
def getField : JsVal → String → Option JsVal
  | .obj fs, k => (fs.find? (fun e => e.1 = k)).map (·.2)
  | _, _ => none

/-- `x ?? []` on a field expected to hold an array. -/
def jsArray (v : Option JsVal) : List JsVal :=
  match v with
  | some (.arr xs) => xs
  | _ => []

mutual

/-- `YdbResultNormalizer.normalizeValue`: stringify bigints, recurse
into arrays and objects, drop function-valued fields, leave everything
else as is. -/
def normalizeValue : JsVal → JsVal
  | .bigintv n => .str (toString n)
  | .arr xs => .arr (normalizeList xs)
  | .obj fs => .obj (normalizeFields fs)
  | v => v

def normalizeList : List JsVal → List JsVal
  | [] => []
  | x :: xs => normalizeValue x :: normalizeList xs

def normalizeFields : List (String × JsVal) → List (String × JsVal)
  | [] => []
  | (k, v) :: fs =>
    if v.isFn then normalizeFields fs else (k, normalizeValue v) :: normalizeFields fs

end

/-- `YdbResultNormalizer.normalizeStats`. -/
def normalizeStats (execStats : JsVal) : JsVal := normalizeValue execStats

mutual

/-- No `bigint` node occurs in the value. -/
def noBigint : JsVal → Bool
  | .bigintv _ => false
  | .arr xs => noBigintList xs
  | .obj fs => noBigintFields fs
  | _ => true

def noBigintList : List JsVal → Bool
  | [] => true
  | x :: xs => noBigint x && noBigintList xs

def noBigintFields : List (String × JsVal) → Bool
  | [] => true
  | (_, v) :: fs => noBigint v && noBigintFields fs

end

mutual

theorem noBigint_normalizeValue : (v : JsVal) → noBigint (normalizeValue v) = true
  | .nullv => by simp [normalizeValue, noBigint]
  | .undef => by simp [normalizeValue, noBigint]
  | .boolv b => by simp [normalizeValue, noBigint]
  | .num n => by simp [normalizeValue, noBigint]
  | .bigintv n => by simp [normalizeValue, noBigint]
  | .str s => by simp [normalizeValue, noBigint]
  | .fn => by simp [normalizeValue, noBigint]
  | .arr xs => by
    rw [normalizeValue, noBigint]
    exact noBigint_normalizeList xs
  | .obj fs => by
    rw [normalizeValue, noBigint]
    exact noBigint_normalizeFields fs

theorem noBigint_normalizeList : (xs : List JsVal) → noBigintList (normalizeList xs) = true
  | [] => by simp [normalizeList, noBigintList]
  | x :: xs => by
    rw [normalizeList, noBigintList]
    simp [noBigint_normalizeValue x, noBigint_normalizeList xs]

theorem noBigint_normalizeFields :
    (fs : List (String × JsVal)) → noBigintFields (normalizeFields fs) = true
  | [] => by simp [normalizeFields, noBigintFields]
  | (k, v) :: fs => by
    rw [normalizeFields]
    by_cases h : v.isFn
    · simpa [h] using noBigint_normalizeFields fs
    · rw [if_neg h, noBigintFields]
      simp [noBigint_normalizeValue v, noBigint_normalizeFields fs]

end

/-- `getOperationRows`: the `rows` counter of a table-access operation
(`0n` when the operation or the counter is missing or falsy). -/
def getOperationRows (operation : Option JsVal) : Nat :=
  match operation with
  | none => 0
  | some op =>
    match getField op "rows" with
    | some (.bigintv n) => n.toNat
    | _ => 0

/-- The exact (unclamped) sum computed by `calculateRowsAffected`:
update plus delete row counts over every table access of every query
phase. -/
def calculateRowsAffectedTotal (execStats : JsVal) : Nat :=
  ((jsArray (getField execStats "queryPhases")).map (fun phase =>
    ((jsArray (getField phase "tableAccess")).map (fun table =>
      getOperationRows (getField table "updates") +
        getOperationRows (getField table "deletes"))).sum)).sum

/-- `calculateRowsAffected`: the sum above, returned as a JS number —
clamped to `Number.MAX_SAFE_INTEGER` when it exceeds it. -/
def calculateRowsAffected (execStats : JsVal) : Nat :=
  let total := calculateRowsAffectedTotal execStats
  if total = 0 then 0
  else if MAX_SAFE_INTEGER < total then MAX_SAFE_INTEGER
  else total

/-- A result-set column as streamed (`type` may be absent). -/
structure RawColumn where
  name : String
  type : Option String
deriving Repr, DecidableEq

/-- A streamed result set: its column descriptors and rows (each row a
list of raw cell values). -/
structure ResultSetPart (V : Type) where
  columns : List RawColumn
  rows : List (List V)
deriving Repr, DecidableEq

/-- One streamed part: status, issue list, optional result set,
optional execution statistics. -/
structure StreamPart (V : Type) where
  status : Nat
  issues : List String
  resultSet : Option (ResultSetPart V)
  execStats : Option JsVal

/-- Column metadata retained in the result (`type` proven present). -/
structure YdbColumn where
  name : String
  type : String
deriving Repr, DecidableEq

/-- The `YdbQueryResult` produced by `collect`. -/
structure YdbQueryResult (W : Type) where
  columns : List YdbColumn
  columnTypes : List ColumnType
  rows : List (List W)
  rowsAffected : Option Nat
  stats : Option JsVal

/-- The failures `collect` can raise. -/
inductive CollectErr where
  | statusError (status : Nat) (issues : List String)
  | missingColumnType (name : String)
  | missingColumnMeta (index : Nat)
  | missingTypeForIndex (index : Nat)
deriving Repr, DecidableEq

/-- The accumulator of `collect`'s loop. -/
structure CollectAcc (W : Type) where
  columns : List YdbColumn
  columnTypes : List ColumnType
  rows : List (List W)
  rowsAffected : Option Nat
  stats : Option JsVal

/-- The accumulator at loop entry. -/
def accInit {W : Type} : CollectAcc W := ⟨[], [], [], none, none⟩

/-- The column-capture loop of the first result-set-bearing part: every
column must report a type. -/
def buildColumns : List RawColumn → Except CollectErr (List YdbColumn × List ColumnType)
  | [] => .ok ([], [])
  | c :: cs =>
    match c.type with
    | none => .error (.missingColumnType c.name)
    | some t =>
      match buildColumns cs with
      | .error e => .error e
      | .ok (cols, types) => .ok (⟨c.name, t⟩ :: cols, toPrismaColumnType t :: types)

/-- Decoding of one cell at column index `i`: the current part's column
descriptor provides the backend type, the accumulated `columnTypes`
(with a fallback on the descriptor) the engine column type.  `decode`
stands for the external codec (`fromYdb`/`toJs`) and `normalize` for
`YqlTypeMapper.normalizeValue`. -/
def decodeCell {V W0 W : Type} (decode : V → String → W0) (normalize : W0 → ColumnType → W)
    (schemas : List RawColumn) (columnTypes : List ColumnType) (i : Nat) (v : V) :
    Except CollectErr W :=
  match schemas.get? i with
  | none => .error (.missingColumnMeta i)
  | some cs =>
    match cs.type with
    | none => .error (.missingTypeForIndex i)
    | some ydbType =>
      .ok (normalize (decode v ydbType) ((columnTypes.get? i).getD (toPrismaColumnType ydbType)))

/-- The `row.items.forEach` loop, from column index `i`. -/
def decodeCells {V W0 W : Type} (decode : V → String → W0) (normalize : W0 → ColumnType → W)
    (schemas : List RawColumn) (columnTypes : List ColumnType) :
    Nat → List V → Except CollectErr (List W)
  | _, [] => .ok []
  | i, v :: vs =>
    match decodeCell decode normalize schemas columnTypes i v with
    | .error e => .error e
    | .ok w =>
      match decodeCells decode normalize schemas columnTypes (i + 1) vs with
      | .error e => .error e
      | .ok ws => .ok (w :: ws)

/-- The row loop over one streamed result set. -/
def decodeRows {V W0 W : Type} (decode : V → String → W0) (normalize : W0 → ColumnType → W)
    (schemas : List RawColumn) (columnTypes : List ColumnType) :
    List (List V) → Except CollectErr (List (List W))
  | [] => .ok []
  | row :: rows =>
    match decodeCells decode normalize schemas columnTypes 0 row with
    | .error e => .error e
    | .ok r =>
      match decodeRows decode normalize schemas columnTypes rows with
      | .error e => .error e
      | .ok rs => .ok (r :: rs)

/-- One iteration of `collect`'s `for await` loop over a part. -/
def processPart {V W0 W : Type} (decode : V → String → W0) (normalize : W0 → ColumnType → W)
    (acc : CollectAcc W) (part : StreamPart V) : Except CollectErr (CollectAcc W) :=
  if part.status ≠ SUCCESS then .error (.statusError part.status part.issues)
  else
    match part.resultSet with
    | none =>
      match part.execStats with
      | some es =>
        .ok { acc with rowsAffected := some (calculateRowsAffected es),
                       stats := some (normalizeStats es) }
      | none => .ok acc
    | some rs =>
      match
        (if acc.columns.length = 0 then buildColumns rs.columns
         else .ok (acc.columns, acc.columnTypes)) with
      | .error e => .error e
      | .ok (cols, ctypes) =>
        match decodeRows decode normalize rs.columns ctypes rs.rows with
        | .error e => .error e
        | .ok newRows =>
          let acc' := { acc with columns := cols, columnTypes := ctypes,
                                 rows := acc.rows ++ newRows }
          match part.execStats with
          | some es =>
            .ok { acc' with rowsAffected := some (calculateRowsAffected es),
                            stats := some (normalizeStats es) }
          | none => .ok acc'

/-- `collect`'s loop over the stream. -/
def collectGo {V W0 W : Type} (decode : V → String → W0) (normalize : W0 → ColumnType → W) :
    List (StreamPart V) → CollectAcc W → Except CollectErr (CollectAcc W)
  | [], acc => .ok acc
  | p :: ps, acc =>
    match processPart decode normalize acc p with
    | .error e => .error e
    | .ok acc' => collectGo decode normalize ps acc'

/-- The `YdbQueryResult` assembled from the final accumulator. -/
def resultOfAcc {W : Type} (acc : CollectAcc W) : YdbQueryResult W :=
  ⟨acc.columns, acc.columnTypes, acc.rows, acc.rowsAffected, acc.stats⟩

/-- `YdbResultNormalizer.collect` over a finite stream of parts. -/
def collect {V W0 W : Type} (decode : V → String → W0) (normalize : W0 → ColumnType → W)
    (parts : List (StreamPart V)) : Except CollectErr (YdbQueryResult W) :=
  match collectGo decode normalize parts accInit with
  | .error e => .error e
  | .ok acc => .ok (resultOfAcc acc)

lemma collectGo_cons {V W0 W : Type} (decode : V → String → W0)
    (normalize : W0 → ColumnType → W) (p : StreamPart V) (ps : List (StreamPart V))
    (acc : CollectAcc W) :
    collectGo decode normalize (p :: ps) acc =
      match processPart decode normalize acc p with
      | .error e => .error e
      | .ok acc' => collectGo decode normalize ps acc' := rfl

lemma collectGo_append {V W0 W : Type} (decode : V → String → W0)
    (normalize : W0 → ColumnType → W) (l l' : List (StreamPart V)) (acc : CollectAcc W) :
    collectGo decode normalize (l ++ l') acc =
      match collectGo decode normalize l acc with
      | .error e => .error e
      | .ok acc' => collectGo decode normalize l' acc' := by
  induction l generalizing acc with
  | nil => simp [collectGo]
  | cons p ps ih =>
    rw [List.cons_append, collectGo, collectGo]
    cases processPart decode normalize acc p with
    | error e => rfl
    | ok acc₁ => exact ih acc₁

lemma processPart_stats {V W0 W : Type} (decode : V → String → W0)
    (normalize : W0 → ColumnType → W) (acc acc' : CollectAcc W) (p : StreamPart V)
    (h : processPart decode normalize acc p = .ok acc') :
    (∀ es, p.execStats = some es →
      acc'.rowsAffected = some (calculateRowsAffected es) ∧
      acc'.stats = some (normalizeStats es)) ∧
    (p.execStats = none →
      acc'.rowsAffected = acc.rowsAffected ∧ acc'.stats = acc.stats) := by
  simp only [processPart] at h
  split at h
  · simp at h
  · split at h
    · split at h
      · rename_i es₀ hes
        cases h
        refine ⟨fun es' he => ?_, fun hn => ?_⟩
        · rw [hes] at he
          cases he
          exact ⟨rfl, rfl⟩
        · rw [hes] at hn
          cases hn
      · rename_i hes
        cases h
        refine ⟨fun es' he => ?_, fun _ => ⟨rfl, rfl⟩⟩
        rw [hes] at he
        cases he
    · split at h
      · simp at h
      · split at h
        · simp at h
        · split at h
          · rename_i es₀ hes
            cases h
            refine ⟨fun es' he => ?_, fun hn => ?_⟩
            · rw [hes] at he
              cases he
              exact ⟨rfl, rfl⟩
            · rw [hes] at hn
              cases hn
          · rename_i hes
            cases h
            refine ⟨fun es' he => ?_, fun _ => ⟨rfl, rfl⟩⟩
            rw [hes] at he
            cases he

lemma collectGo_stats {V W0 W : Type} (decode : V → String → W0)
    (normalize : W0 → ColumnType → W) :
    ∀ (parts : List (StreamPart V)) (acc acc' : CollectAcc W),
      collectGo decode normalize parts acc = .ok acc' →
      (∀ es, (parts.filterMap (·.execStats)).getLast? = some es →
        acc'.rowsAffected = some (calculateRowsAffected es) ∧
        acc'.stats = some (normalizeStats es)) ∧
      ((parts.filterMap (·.execStats)) = [] →
        acc'.rowsAffected = acc.rowsAffected ∧ acc'.stats = acc.stats) := by
  intro parts
  induction parts with
  | nil =>
    intro acc acc' h
    rw [collectGo] at h
    cases h
    exact ⟨fun es he => by simp at he, fun _ => ⟨rfl, rfl⟩⟩
  | cons p ps ih =>
    intro acc acc' h
    rw [collectGo] at h
    cases hp : processPart decode normalize acc p with
    | error e => rw [hp] at h; cases h
    | ok acc₁ =>
      rw [hp] at h
      have hps := ih acc₁ acc' h
      have hpp := processPart_stats decode normalize acc acc₁ p hp
      cases hes : p.execStats with
      | none =>
        constructor
        · intro es he
          rw [List.filterMap_cons, hes] at he
          exact hps.1 es he
        · intro hnil
          rw [List.filterMap_cons, hes] at hnil
          have h₁ := hps.2 hnil
          have h₂ := hpp.2 hes
          exact ⟨h₁.1.trans h₂.1, h₁.2.trans h₂.2⟩
      | some es₀ =>
        constructor
        · intro es he
          rw [List.filterMap_cons, hes] at he
          cases htail : ps.filterMap (·.execStats) with
          | nil =>
            rw [htail] at he
            simp at he
            cases he
            have h₁ := hps.2 htail
            have h₂ := hpp.1 es₀ hes
            exact ⟨h₁.1.trans h₂.1, h₁.2.trans h₂.2⟩
          | cons b l =>
            rw [htail] at he
            rw [List.getLast?_cons_cons] at he
            exact hps.1 es (by rw [htail]; exact he)
        · intro hnil
          rw [List.filterMap_cons, hes] at hnil
          simp at hnil

end Norm

/-- C5: if any streamed part carries a non-success status, `collect`
fails with the status error built from that part's status and issue
list (the first such part, since collection aborts there); no result —
in particular none of the rows of the earlier successful parts — is
returned, the error being the only outcome. -/
theorem collect_aborts_on_status_c5 {V W0 W : Type} (decode : V → String → W0)
    (normalize : W0 → Norm.ColumnType → W) (pre rest : List (Norm.StreamPart V))
    (bad : Norm.StreamPart V) (acc' : Norm.CollectAcc W)
    (hpre : Norm.collectGo decode normalize pre Norm.accInit = .ok acc')
    (hbad : bad.status ≠ Norm.SUCCESS) :
    Norm.collect decode normalize (pre ++ bad :: rest) =
      .error (.statusError bad.status bad.issues) := by
  have h1 : Norm.collectGo decode normalize (pre ++ bad :: rest) Norm.accInit =
      .error (.statusError bad.status bad.issues) := by
    rw [Norm.collectGo_append, hpre]
    show Norm.collectGo decode normalize (bad :: rest) acc' = _
    rw [Norm.collectGo_cons, Norm.processPart, if_pos hbad]
  rw [Norm.collect, h1]

/-- Witness for C5, the spec scenario: two successful rows-bearing parts
followed by a non-success part; `collect` surfaces the status error and
none of the two rows. -/
theorem collect_aborts_on_status_c5_witness :
    Norm.collect (fun (v : Nat) (_ : String) => v) (fun (w : Nat) (_ : Norm.ColumnType) => w)
        [⟨400000, [], some ⟨[⟨"a", some "Int32"⟩], [[5]]⟩, none⟩,
         ⟨400000, [], some ⟨[⟨"a", some "Int32"⟩], [[6]]⟩, none⟩,
         ⟨400010, ["overloaded"], none, none⟩] =
      .error (.statusError 400010 ["overloaded"]) :=
  collect_aborts_on_status_c5 (fun (v : Nat) (_ : String) => v)
    (fun (w : Nat) (_ : Norm.ColumnType) => w)
    [⟨400000, [], some ⟨[⟨"a", some "Int32"⟩], [[5]]⟩, none⟩,
     ⟨400000, [], some ⟨[⟨"a", some "Int32"⟩], [[6]]⟩, none⟩]
    [] ⟨400010, ["overloaded"], none, none⟩
    ⟨[⟨"a", "Int32"⟩], [.int32], [[5], [6]], none, none⟩ rfl (by decide)

/-- Execution statistics whose update row count is `2 ^ 53`, one above
`Number.MAX_SAFE_INTEGER`. -/
def hugeStats : Norm.JsVal :=
  .obj [("queryPhases", .arr [.obj [("tableAccess",
    .arr [.obj [("updates", .obj [("rows", .bigintv (2 ^ 53))])]])]])]

/-- Execution statistics reporting three updated and two deleted rows. -/
def smallStats : Norm.JsVal :=
  .obj [("queryPhases", .arr [.obj [("tableAccess",
    .arr [.obj [("updates", .obj [("rows", .bigintv 3)]),
                ("deletes", .obj [("rows", .bigintv 2)])]])]])]

/-- Counterexample to C8 as stated: the sum of the update/delete row
counts in these statistics is `2 ^ 53`, but the `rowsAffected` carried
by the collected result is the clamped `Number.MAX_SAFE_INTEGER =
2 ^ 53 - 1`, not the sum. -/
theorem collect_stats_c8_counterexample :
    Norm.calculateRowsAffectedTotal hugeStats = 2 ^ 53 ∧
    Norm.collect (fun (v : Nat) (_ : String) => v) (fun (w : Nat) (_ : Norm.ColumnType) => w)
        [⟨400000, [], none, some hugeStats⟩] =
      .ok ⟨[], [], [], some (2 ^ 53 - 1), some (Norm.normalizeStats hugeStats)⟩ ∧
    (2 ^ 53 - 1 : Nat) ≠ 2 ^ 53 := by
  refine ⟨by decide, ?_, by decide⟩
  have h : Norm.calculateRowsAffected hugeStats = 2 ^ 53 - 1 := by decide
  rw [Norm.collect, Norm.collectGo_cons, Norm.processPart]
  simp only [Norm.collectGo]
  rw [h]
  rfl

/-- The clamp `calculateRowsAffected` applies to the exact sum. -/
lemma calculateRowsAffected_min (es : Norm.JsVal) :
    Norm.calculateRowsAffected es =
      min (Norm.calculateRowsAffectedTotal es) Norm.MAX_SAFE_INTEGER := by
  rw [Norm.calculateRowsAffected]
  split_ifs with h0 hc
  · simp [h0]
  · omega
  · omega

/-- C8 (amended): when execution statistics are present on some streamed
part and collection succeeds, the result carries `rowsAffected` equal to
the sum of the update and delete row counts over all table-access
entries of all reported query phases of the last statistics-bearing
part, clamped to `Number.MAX_SAFE_INTEGER` (`2 ^ 53 - 1`) when that sum
exceeds it, and carries the full stats structure normalized so that no
bigint remains (every unbounded integer rendered as a string). -/
theorem collect_stats_clamped_c8 {V W0 W : Type} (decode : V → String → W0)
    (normalize : W0 → Norm.ColumnType → W) (parts : List (Norm.StreamPart V))
    (acc' : Norm.CollectAcc W) (es : Norm.JsVal)
    (hok : Norm.collectGo decode normalize parts Norm.accInit = .ok acc')
    (hlast : (parts.filterMap Norm.StreamPart.execStats).getLast? = some es) :
    Norm.collect decode normalize parts = .ok (Norm.resultOfAcc acc') ∧
    (Norm.resultOfAcc acc').rowsAffected =
      some (min (Norm.calculateRowsAffectedTotal es) Norm.MAX_SAFE_INTEGER) ∧
    (Norm.resultOfAcc acc').stats = some (Norm.normalizeValue es) ∧
    Norm.noBigint (Norm.normalizeValue es) = true := by
  have hs := (Norm.collectGo_stats decode normalize parts Norm.accInit acc' hok).1 es hlast
  refine ⟨by rw [Norm.collect, hok], ?_, ?_, Norm.noBigint_normalizeValue es⟩
  · show acc'.rowsAffected = _
    rw [hs.1, calculateRowsAffected_min]
  · show acc'.stats = _
    exact hs.2

/-- Witness for C8 (amended): a stream with one statistics-bearing part
(three updated rows, two deleted) collects with `rowsAffected = 5` and
the stringified stats. -/
theorem collect_stats_clamped_c8_witness :
    Norm.collect (fun (v : Nat) (_ : String) => v) (fun (w : Nat) (_ : Norm.ColumnType) => w)
        [⟨400000, [], none, some smallStats⟩] =
      .ok ⟨[], [], [], some 5, some (Norm.normalizeStats smallStats)⟩ := by
  have h := collect_stats_clamped_c8 (fun (v : Nat) (_ : String) => v)
    (fun (w : Nat) (_ : Norm.ColumnType) => w)
    [⟨400000, [], none, some smallStats⟩]
    ⟨[], [], [], some (Norm.calculateRowsAffected smallStats),
      some (Norm.normalizeStats smallStats)⟩ smallStats rfl rfl
  refine h.1.trans ?_
  have h5 : Norm.calculateRowsAffected smallStats = 5 := by decide
  rw [Norm.resultOfAcc]
  rw [h5]

namespace Prep

/-- The backend value types constructed by the preparer
(`@ydbjs/value` type objects). -/
inductive YdbType where
  | bool | int8 | int16 | int32 | int64 | uint8 | uint16 | uint32 | uint64
  | float | double | utf8 | bytes | jsonDocument | timestamp | uuid
  | optional (item : YdbType)
  | list (item : YdbType)
deriving Repr, DecidableEq

/-- Payload carried by a primitive backend value.  Numeric payloads are
modelled as integers (no claim depends on float payloads); a `Date`
built from a string keeps the string, since `new Date(string)` parsing
is a host concern. -/
inductive Payload where
  | intP (n : Int)
  | boolP (b : Bool)
  | strP (s : String)
  | bytesP (bs : List Nat)
  | dateP (ms : Int)
  | dateStrP (s : String)
deriving Repr, DecidableEq

/-- A backend value as built by the preparer: a primitive
(`new Int32(...)`, `new Utf8(...)`, ...), an `Optional`, a `List`, or
the preparer's own `StaticListValue` (a typed empty list). -/
inductive YdbVal where
  | prim (t : YdbType) (p : Payload)
  | optionalV (value : Option YdbVal) (item : YdbType)
  | listV (items : List YdbVal)
  | staticList (item : YdbType)
deriving Repr

/-- The failures `prepare` can raise (`throw new Error(...)` sites). -/
inductive PrepErr where
  | placeholderOutOfRange (digits : String)
  | tooManyPlaceholders
  | unsupportedDate
  | unsupportedBinary
  | notNumber
  | notBigInt
deriving Repr, DecidableEq

/-- A JavaScript argument value as passed in `query.args`.  `prebound`
models a value already satisfying `isPreboundYdbValue` (it carries
`encode`/`type.encode`). -/
inductive JsArg where
  | nullv
  | undef
  | boolv (b : Bool)
  | num (n : Int)
  | bigintv (n : Int)
  | str (s : String)
  | arr (elems : List JsArg)
  | bytes (bs : List Nat)
  | date (ms : Int)
  | objv
  | prebound (w : YdbVal)
deriving Repr

/-- JS truthiness, for `Boolean(value)` and `if (error)`. -/
def jsTruthy : JsArg → Bool
  | .boolv b => b
  | .num n => decide (n ≠ 0)
  | .bigintv n => decide (n ≠ 0)
  | .str s => decide (s ≠ "")
  | .nullv => false
  | .undef => false
  | _ => true

/-- `String(value)`.  Primitive conversions are exact; string forms of
arrays, buffers, dates and objects are modelled coarsely (no claim
depends on them). -/
def jsToString : JsArg → String
  | .str s => s
  | .num n => toString n
  | .bigintv n => toString n
  | .boolv b => cond b "true" "false"
  | .nullv => "null"
  | .undef => "undefined"
  | .date _ => "[Date]"
  | .arr _ => "[Array]"
  | .bytes _ => "[Bytes]"
  | .objv => "[object Object]"
  | .prebound _ => "[object Object]"

/-- Coarse model of `JSON.stringify` (the `json` scalar path applies it
only to non-string values; no claim depends on its exact output). -/
def jsonStringify : JsArg → String
  | .boolv b => cond b "true" "false"
  | .num n => toString n
  | .bigintv n => toString n
  | .nullv => "null"
  | .str s => "\"" ++ s ++ "\""
  | _ => "{}"

/-- `ensureNumber`: numbers pass, strings are parsed (`Number(value)`,
restricted here to integer literals), bigints are narrowed; anything
else throws. -/
def ensureNumber : JsArg → Except PrepErr Int
  | .num n => .ok n
  | .str s =>
    match s.toInt? with
    | some n => .ok n
    | none => .error .notNumber
  | .bigintv n => .ok n
  | _ => .error .notNumber

/-- `ensureBigInt`: bigints pass, numbers are truncated, non-blank
strings are parsed; anything else throws. -/
def ensureBigInt : JsArg → Except PrepErr Int
  | .bigintv n => .ok n
  | .num n => .ok n
  | .str s =>
    if s.trim.length = 0 then .error .notBigInt
    else
      match s.trim.toInt? with
      | some n => .ok n
      | none => .error .notBigInt
  | _ => .error .notBigInt

/-- `ensureDate`: a `Date` passes; numbers become epoch dates; strings
are kept for host-side `new Date(string)` parsing; anything else
throws. -/
def ensureDate : JsArg → Except PrepErr Payload
  | .date ms => .ok (.dateP ms)
  | .num n => .ok (.dateP n)
  | .str s => .ok (.dateStrP s)
  | _ => .error .unsupportedDate

/-- `ensureUint8Array`: buffer-like values pass; plain arrays are
coerced element-wise as `new Uint8Array(array)` does (non-numeric
entries become `0`); anything else throws. -/
def ensureUint8Array : JsArg → Except PrepErr (List Nat)
  | .bytes bs => .ok bs
  | .arr xs =>
    .ok (xs.map (fun x =>
      match x with
      | .num n => (n % 256).toNat
      | _ => 0))
  | _ => .error .unsupportedBinary

/-- Does `needle` occur as a leading run of `hay`? -/
def startsWithL : List Char → List Char → Bool
  | [], _ => true
  | _ :: _, [] => false
  | a :: as, b :: bs => a = b && startsWithL as bs

/-- `haystack.includes(needle)`. -/
def containsSub (needle hay : List Char) : Bool :=
  hay.tails.any (fun t => startsWithL needle t)

/-- The `while ((match = optionalWrapper.exec(normalized)))` loop of
`normalizeDbType`: peel `^optional<(.*)>$` wrappers. -/
def stripOuterOptL : List Char → List Char × Bool
  | l =>
    if h : startsWithL ("optional<".toList) l ∧ l.getLast? = some '>' ∧ 10 ≤ l.length then
      ((stripOuterOptL ((l.drop 9).dropLast)).1, true)
    else (l, false)
termination_by l => l.length
decreasing_by
  obtain ⟨-, -, hlen⟩ := h
  simp only [List.length_dropLast, List.length_drop]
  show l.length - 9 - 1 < l.length
  omega

/-- One left-to-right pass of
`normalized.replace(/optional<([^>]+)>/g, ...)` keeping the group. -/
def replOptionalGo : Nat → List Char → List Char
  | 0, l => l
  | _ + 1, [] => []
  | fuel + 1, c :: cs =>
    if startsWithL ("optional<".toList) (c :: cs) then
      let rest := (c :: cs).drop 9
      let inner := rest.takeWhile (fun x => x ≠ '>')
      match rest.dropWhile (fun x => x ≠ '>') with
      | '>' :: tail =>
        if inner.isEmpty then c :: replOptionalGo fuel cs
        else inner ++ replOptionalGo fuel tail
      | _ => c :: replOptionalGo fuel cs
    else c :: replOptionalGo fuel cs

def replOptional (l : List Char) : List Char := replOptionalGo l.length l

/-- `normalizeDbType`: lowercase, strip whitespace, unwrap
`optional<...>` wrappers (outer loop, then embedded occurrences), strip
a trailing `?`; reports whether any optionality marker was seen. -/
def normalizeDbType : Option String → Option (List Char) × Bool
  | none => (none, false)
  | some dbType =>
    let l := dbType.toLower.toList.filter (fun c => ¬ c.isWhitespace)
    let s₁ := stripOuterOptL l
    let s₂ :=
      if containsSub ("optional<".toList) s₁.1 then (replOptional s₁.1, true)
      else (s₁.1, false)
    let s₃ :=
      if s₂.1.getLast? = some '?' then (s₂.1.dropLast, true) else (s₂.1, false)
    (some s₃.1, s₁.2 || s₂.2 || s₃.2)

/-- `ScalarMeta`: the resolved backend type, the constructor for a
non-null value, and whether the declared type was optional. -/
structure ScalarMeta where
  typeFactory : YdbType
  create : JsArg → Except PrepErr YdbVal
  optional : Bool

/-- Does the normalized db type name mention `needle`? -/
def dbTypeHas (dbType : Option (List Char)) (needle : String) : Bool :=
  match dbType with
  | none => false
  | some l => containsSub needle.toList l

/-- `getIntegerMeta`: width/signedness resolution for `int` arguments
(unsigned widths checked first, 32-bit signed default). -/
def getIntegerMeta (dbType : Option (List Char)) (optional : Bool) : ScalarMeta :=
  if dbTypeHas dbType "uint8" then
    ⟨.uint8, fun v => (ensureNumber v).map (fun n => .prim .uint8 (.intP n)), optional⟩
  else if dbTypeHas dbType "uint16" then
    ⟨.uint16, fun v => (ensureNumber v).map (fun n => .prim .uint16 (.intP n)), optional⟩
  else if dbTypeHas dbType "uint32" then
    ⟨.uint32, fun v => (ensureNumber v).map (fun n => .prim .uint32 (.intP n)), optional⟩
  else if dbTypeHas dbType "uint64" then
    ⟨.uint64, fun v => (ensureBigInt v).map (fun n => .prim .uint64 (.intP n)), optional⟩
  else if dbTypeHas dbType "int8" then
    ⟨.int8, fun v => (ensureNumber v).map (fun n => .prim .int8 (.intP n)), optional⟩
  else if dbTypeHas dbType "int16" then
    ⟨.int16, fun v => (ensureNumber v).map (fun n => .prim .int16 (.intP n)), optional⟩
  else if dbTypeHas dbType "int32" then
    ⟨.int32, fun v => (ensureNumber v).map (fun n => .prim .int32 (.intP n)), optional⟩
  else if dbTypeHas dbType "int64" then
    ⟨.int64, fun v => (ensureBigInt v).map (fun n => .prim .int64 (.intP n)), optional⟩
  else
    ⟨.int32, fun v => (ensureNumber v).map (fun n => .prim .int32 (.intP n)), optional⟩

/-- `getBigIntMeta`: 64-bit resolution for `bigint` arguments (signed
64-bit default). -/
def getBigIntMeta (dbType : Option (List Char)) (optional : Bool) : ScalarMeta :=
  if dbTypeHas dbType "uint64" then
    ⟨.uint64, fun v => (ensureBigInt v).map (fun n => .prim .uint64 (.intP n)), optional⟩
  else if dbTypeHas dbType "int64" then
    ⟨.int64, fun v => (ensureBigInt v).map (fun n => .prim .int64 (.intP n)), optional⟩
  else
    ⟨.int64, fun v => (ensureBigInt v).map (fun n => .prim .int64 (.intP n)), optional⟩

/-- The Prisma `ArgType.scalarType` values handled by the preparer. -/
inductive ScalarKind where
  | boolean | int | bigint | float | decimal | uuid | json | datetime | bytes
  | enum | string | unknown
deriving Repr, DecidableEq

/-- The per-argument type metadata (`ArgType`): scalar kind, optional
backend type hint, and arity. -/
structure ArgTypeM where
  scalarType : ScalarKind
  dbType : Option String
  isList : Bool
deriving Repr, DecidableEq

/-- `getScalarMeta`: resolve an argument's `ScalarMeta` from its
declared type (absent declaration defaults to `string`). -/
def getScalarMeta (argType : Option ArgTypeM) : ScalarMeta :=
  let scalar := (argType.map (·.scalarType)).getD .string
  let nd := normalizeDbType (argType.bind (·.dbType))
  let dbType := nd.1
  let opt := nd.2
  match scalar with
  | .boolean => ⟨.bool, fun v => .ok (.prim .bool (.boolP (jsTruthy v))), opt⟩
  | .int => getIntegerMeta dbType opt
  | .bigint => getBigIntMeta dbType opt
  | .float => ⟨.float, fun v => (ensureNumber v).map (fun n => .prim .float (.intP n)), opt⟩
  | .decimal => ⟨.double, fun v => (ensureNumber v).map (fun n => .prim .double (.intP n)), opt⟩
  | .uuid => ⟨.uuid, fun v => .ok (.prim .uuid (.strP (jsToString v))), opt⟩
  | .json =>
    ⟨.jsonDocument,
     fun v => .ok (.prim .jsonDocument (.strP
       (match v with
        | .str s => s
        | _ => jsonStringify v))), opt⟩
  | .datetime => ⟨.timestamp, fun v => (ensureDate v).map (fun p => .prim .timestamp p), opt⟩
  | .bytes =>
    ⟨.bytes, fun v => (ensureUint8Array v).map (fun bs => .prim .bytes (.bytesP bs)), opt⟩
  | .enum => ⟨.utf8, fun v => .ok (.prim .utf8 (.strP (jsToString v))), opt⟩
  | .string => ⟨.utf8, fun v => .ok (.prim .utf8 (.strP (jsToString v))), opt⟩
  | .unknown => ⟨.utf8, fun v => .ok (.prim .utf8 (.strP (jsToString v))), opt⟩

/-- `isPreboundYdbValue`. -/
def isPrebound : JsArg → Option YdbVal
  | .prebound w => some w
  | _ => none

/-- `createScalarValue`: prebound values pass through; `null`/absent
encodes as an empty `Optional` of the resolved type; otherwise the meta
constructor runs, and a declared-optional type wraps the result in
`Optional`. -/
def createScalarValue (meta : ScalarMeta) (value : JsArg) : Except PrepErr YdbVal :=
  match isPrebound value with
  | some w => .ok w
  | none =>
    match value with
    | .nullv => .ok (.optionalV none meta.typeFactory)
    | .undef => .ok (.optionalV none meta.typeFactory)
    | _ =>
      match meta.create value with
      | .error e => .error e
      | .ok created =>
        match created with
        | .optionalV v t => .ok (.optionalV v t)
        | _ =>
          if meta.optional then .ok (.optionalV (some created) meta.typeFactory)
          else .ok created

/-- Error-propagating map (the body of `source.map` / `order.map` with
a `throw` inside). -/
def mapMExcept {ε α β : Type} (f : α → Except ε β) : List α → Except ε (List β)
  | [] => .ok []
  | a :: as =>
    match f a with
    | .error e => .error e
    | .ok b =>
      match mapMExcept f as with
      | .error e => .error e
      | .ok bs => .ok (b :: bs)

/-- `createListValue`: non-arrays are treated as empty; an empty input
yields a typed zero-length `StaticListValue` (optional item type when
declared optional); otherwise items are encoded as scalars. -/
def createListValue (meta : ScalarMeta) (value : JsArg) : Except PrepErr YdbVal :=
  let source := match value with | .arr xs => xs | _ => []
  match source with
  | [] =>
    let itemType := if meta.optional then YdbType.optional meta.typeFactory else meta.typeFactory
    .ok (.staticList itemType)
  | _ :: _ =>
    match mapMExcept (createScalarValue meta) source with
    | .error e => .error e
    | .ok items => .ok (.listV items)

/-- A `SqlQuery`: text, positional arguments, optional per-argument
types. -/
structure SqlQueryM where
  sql : String
  args : List JsArg
  argTypes : Option (List ArgTypeM)

/-- A `PreparedQuery`: rewritten text plus the parameter map (insertion
order of a JS record with keys `$p0, $p1, ...`). -/
structure PreparedQueryM where
  text : String
  parameters : List (String × YdbVal)
deriving Repr

/-- The body of the `segmentsInfo.order.map` callback in `prepare`:
encode the argument at `argIndex` (`metas[argIndex] ?? getScalarMeta`
always coincides with `getScalarMeta` of that index's declared type). -/
def encodeArgAt (q : SqlQueryM) (argIndex : Nat) : Except PrepErr YdbVal :=
  let argValue := (q.args.get? argIndex).getD .undef
  let argType := q.argTypes.bind (fun ts => ts.get? argIndex)
  let meta := getScalarMeta argType
  if (argType.map (·.isList)).getD false then createListValue meta argValue
  else createScalarValue meta argValue

end Prep

namespace Prep

/-- Maximal leading digit run (`\\d+` at the cursor). -/
def takeDigitsL : List Char → List Char × List Char
  | [] => ([], [])
  | c :: cs =>
    if c.isDigit then ((c :: (takeDigitsL cs).1), (takeDigitsL cs).2)
    else ([], c :: cs)

lemma takeDigitsL_length (l : List Char) : (takeDigitsL l).2.length ≤ l.length := by
  induction l with
  | nil => simp [takeDigitsL]
  | cons c cs ih =>
    by_cases h : c.isDigit
    · simp only [takeDigitsL, if_pos h]
      exact ih.trans (by simp)
    · simp [takeDigitsL, if_neg h]

lemma takeDigitsL_append (l : List Char) : (takeDigitsL l).1 ++ (takeDigitsL l).2 = l := by
  induction l with
  | nil => simp [takeDigitsL]
  | cons c cs ih =>
    by_cases h : c.isDigit
    · simp only [takeDigitsL, if_pos h, List.cons_append, ih]
    · simp [takeDigitsL, if_neg h]

/-- Prepend a plain character to the current segment (the text between
two matches, or the trailing slice). -/
def consSeg (c : Char) (r : List (List Char × List Char) × List Char) :
    List (List Char × List Char) × List Char :=
  match r with
  | ([], trail) => ([], c :: trail)
  | ((seg, d) :: ps, trail) => ((c :: seg, d) :: ps, trail)

/-- The `/\\$(\\d+)/g` scan of `extractSegments`, fuel-indexed (fuel ≥
remaining length suffices): returns, per match, the segment before it
and the matched digit run, plus the trailing segment. -/
def scanDollarGo : Nat → List Char → List (List Char × List Char) × List Char
  | 0, l => ([], l)
  | _ + 1, [] => ([], [])
  | fuel + 1, c :: cs =>
    if c = '$' then
      match takeDigitsL cs with
      | ([], _) => consSeg c (scanDollarGo fuel cs)
      | (d :: ds, rest) =>
        (([], d :: ds) :: (scanDollarGo fuel rest).1, (scanDollarGo fuel rest).2)
    else consSeg c (scanDollarGo fuel cs)

def scanDollar (l : List Char) : List (List Char × List Char) × List Char :=
  scanDollarGo l.length l

/-- The `/\\?/g` scan: segments before each `?` plus the trailing
segment. -/
def scanQuestion : List Char → List (List Char) × List Char
  | [] => ([], [])
  | c :: cs =>
    if c = '?' then ([] :: (scanQuestion cs).1, (scanQuestion cs).2)
    else
      match scanQuestion cs with
      | ([], trail) => ([], c :: trail)
      | (s :: ss, trail) => ((c :: s) :: ss, trail)

/-- `Number(match[1])` on a digit run. -/
def parseDigits (d : List Char) : Nat :=
  d.foldl (fun a c => a * 10 + (c.toNat - '0'.toNat)) 0

/-- The per-match range check of the `$N` loop:
`index = Number(match[1]) - 1; if (index < 0 || index >= args.length) throw`. -/
def checkIndex (argsLen : Nat) (d : List Char) : Except PrepErr Nat :=
  let n := parseDigits d
  if n = 0 then .error (.placeholderOutOfRange (String.mk d))
  else if argsLen ≤ n - 1 then .error (.placeholderOutOfRange (String.mk d))
  else .ok (n - 1)

/-- `extractSegments`: ordinal `$N` placeholders when any occur, else
sequential `?` placeholders, else the text passes through whole. -/
def extractSegments (sql : List Char) (argsLen : Nat) :
    Except PrepErr (List (List Char) × List Nat) :=
  let sd := scanDollar sql
  if sd.1.isEmpty = false then
    match mapMExcept (fun p => checkIndex argsLen p.2) sd.1 with
    | .error e => .error e
    | .ok order => .ok (sd.1.map (·.1) ++ [sd.2], order)
  else
    let sq := scanQuestion sql
    if sq.1.isEmpty = false then
      if argsLen < sq.1.length then .error .tooManyPlaceholders
      else .ok (sq.1 ++ [sq.2], List.range sq.1.length)
    else .ok ([sql], [])

/-- The synthetic parameter name of the `index`-th placeholder in
evaluation order. -/
def paramName (i : Nat) : String := "$p" ++ toString i

/-- The parameter record built by the `textParts.forEach` loop. -/
def paramsOfGo (i : Nat) : List YdbVal → List (String × YdbVal)
  | [] => []
  | v :: vs => (paramName i, v) :: paramsOfGo (i + 1) vs

def paramsOf (values : List YdbVal) : List (String × YdbVal) := paramsOfGo 0 values

/-- The text rebuilt by the `textParts.forEach` loop: each segment, then
(for the first `k` segments) the synthetic name. -/
def assembleGo (k : Nat) : List (List Char) → Nat → List Char
  | [], _ => []
  | s :: ss, i =>
    s ++ (if i < k then (paramName i).toList else []) ++ assembleGo k ss (i + 1)

/-- `YqlQueryPreparer.prepare`. -/
def prepare (q : SqlQueryM) : Except PrepErr PreparedQueryM :=
  if q.args.length = 0 then .ok ⟨q.sql, []⟩
  else
    match extractSegments q.sql.toList q.args.length with
    | .error e => .error e
    | .ok so =>
      match mapMExcept (encodeArgAt q) so.2 with
      | .error e => .error e
      | .ok values => .ok ⟨(assembleGo values.length so.1 0).asString, paramsOf values⟩

/-- Reassemble the original text from the scan: each segment followed by
its `$`-digit occurrence, then the trailing segment. -/
def rebuildL : List (List Char × List Char) → List Char → List Char
  | [], trail => trail
  | (seg, d) :: ps, trail => seg ++ '$' :: (d ++ rebuildL ps trail)

/-- The rewritten text: each occurrence replaced by its synthetic
parameter name. -/
def rebuildNamed : Nat → List (List Char × List Char) → List Char → List Char
  | _, [], trail => trail
  | i, (seg, _) :: ps, trail => seg ++ (paramName i).toList ++ rebuildNamed (i + 1) ps trail

lemma consSeg_rebuild (c : Char) (r : List (List Char × List Char) × List Char) :
    rebuildL (consSeg c r).1 (consSeg c r).2 = c :: rebuildL r.1 r.2 := by
  obtain ⟨ps, trail⟩ := r
  cases ps with
  | nil => rfl
  | cons p ps' =>
    obtain ⟨seg, d⟩ := p
    rfl

lemma scanDollarGo_rebuild :
    ∀ (fuel : Nat) (l : List Char), l.length ≤ fuel →
      rebuildL (scanDollarGo fuel l).1 (scanDollarGo fuel l).2 = l := by
  intro fuel
  induction fuel with
  | zero => intro l _; rfl
  | succ n ih =>
    intro l hl
    cases l with
    | nil => rfl
    | cons c cs =>
      have hcs : cs.length ≤ n := by simpa using Nat.le_of_succ_le_succ hl
      by_cases hc : c = '$'
      · rcases htd : takeDigitsL cs with ⟨dd, rest⟩
        cases dd with
        | nil =>
          simp only [scanDollarGo, if_pos hc, htd]
          rw [consSeg_rebuild, ih cs hcs]
        | cons d ds =>
          simp only [scanDollarGo, if_pos hc, htd]
          have hrest : rest.length ≤ n := by
            have := takeDigitsL_length cs
            rw [htd] at this
            exact this.trans hcs
          rw [rebuildL, ih rest hrest, hc]
          have := takeDigitsL_append cs
          rw [htd] at this
          simp only [List.nil_append]
          rw [this]
      · simp only [scanDollarGo, if_neg hc]
        rw [consSeg_rebuild, ih cs hcs]

lemma scanDollar_rebuild (l : List Char) :
    rebuildL (scanDollar l).1 (scanDollar l).2 = l :=
  scanDollarGo_rebuild l.length l le_rfl

lemma mapMExcept_ok_length {ε α β : Type} (f : α → Except ε β) :
    ∀ (l : List α) (res : List β), mapMExcept f l = .ok res → res.length = l.length := by
  intro l
  induction l with
  | nil =>
    intro res h
    rw [mapMExcept] at h
    cases h
    rfl
  | cons a as ih =>
    intro res h
    rw [mapMExcept] at h
    cases hf : f a with
    | error e => rw [hf] at h; cases h
    | ok b =>
      rw [hf] at h
      cases hm : mapMExcept f as with
      | error e => rw [hm] at h; cases h
      | ok bs =>
        rw [hm] at h
        cases h
        simp [ih bs hm]

lemma mapMExcept_ok_get {ε α β : Type} (f : α → Except ε β) :
    ∀ (l : List α) (res : List β), mapMExcept f l = .ok res →
      ∀ (i : Nat) (a : α), l.get? i = some a →
        ∃ b, res.get? i = some b ∧ f a = .ok b := by
  intro l
  induction l with
  | nil =>
    intro res h i a ha
    simp at ha
  | cons x xs ih =>
    intro res h i a ha
    rw [mapMExcept] at h
    cases hf : f x with
    | error e => rw [hf] at h; cases h
    | ok b =>
      rw [hf] at h
      cases hm : mapMExcept f xs with
      | error e => rw [hm] at h; cases h
      | ok bs =>
        rw [hm] at h
        cases h
        cases i with
        | zero =>
          simp at ha
          cases ha
          exact ⟨b, rfl, hf⟩
        | succ j =>
          simp only [List.get?_cons_succ] at ha ⊢
          exact ih bs hm j a ha

lemma mapMExcept_ok_mem {ε α β : Type} (f : α → Except ε β) :
    ∀ (l : List α) (res : List β), mapMExcept f l = .ok res →
      ∀ a ∈ l, ∃ b, f a = .ok b := by
  intro l
  induction l with
  | nil => intro res _ a ha; simp at ha
  | cons x xs ih =>
    intro res h a ha
    rw [mapMExcept] at h
    cases hf : f x with
    | error e => rw [hf] at h; cases h
    | ok b =>
      rw [hf] at h
      cases hm : mapMExcept f xs with
      | error e => rw [hm] at h; cases h
      | ok bs =>
        rcases List.mem_cons.mp ha with rfl | hmem
        · exact ⟨b, hf⟩
        · exact ih bs hm a hmem

lemma mapMExcept_error_mem {ε α β : Type} (f : α → Except ε β) :
    ∀ (l : List α) (e : ε), mapMExcept f l = .error e → ∃ a ∈ l, f a = .error e := by
  intro l
  induction l with
  | nil => intro e h; rw [mapMExcept] at h; cases h
  | cons x xs ih =>
    intro e h
    rw [mapMExcept] at h
    cases hf : f x with
    | error e' =>
      rw [hf] at h
      cases h
      exact ⟨x, List.mem_cons_self x xs, hf⟩
    | ok b =>
      rw [hf] at h
      cases hm : mapMExcept f xs with
      | error e' =>
        rw [hm] at h
        cases h
        obtain ⟨a, hmem, hfa⟩ := ih e hm
        exact ⟨a, List.mem_cons_of_mem x hmem, hfa⟩
      | ok bs => rw [hm] at h; cases h

lemma checkIndex_ok {len : Nat} {d : List Char} {n : Nat}
    (h : checkIndex len d = .ok n) :
    1 ≤ parseDigits d ∧ n = parseDigits d - 1 ∧ n < len := by
  rw [checkIndex] at h
  split_ifs at h with h1 h2
  cases h
  omega

lemma checkIndex_error_shape {len : Nat} {d : List Char} {e : PrepErr}
    (h : checkIndex len d = .error e) : e = .placeholderOutOfRange (String.mk d) := by
  rw [checkIndex] at h
  split_ifs at h with h1 h2 <;> cases h <;> rfl

lemma checkIndex_error_of_bad {len : Nat} {d : List Char}
    (h : parseDigits d = 0 ∨ len ≤ parseDigits d - 1) :
    checkIndex len d = .error (.placeholderOutOfRange (String.mk d)) := by
  rw [checkIndex]
  split_ifs with h1 h2
  · rfl
  · rfl
  · omega

lemma paramsOfGo_get :
    ∀ (vs : List YdbVal) (i j : Nat),
      (paramsOfGo i vs).get? j = (vs.get? j).map (fun v => (paramName (i + j), v)) := by
  intro vs
  induction vs with
  | nil => intro i j; simp [paramsOfGo]
  | cons v vs ih =>
    intro i j
    cases j with
    | zero => simp [paramsOfGo]
    | succ j' =>
      simp only [paramsOfGo, List.get?_cons_succ, ih (i + 1) j']
      have : i + 1 + j' = i + (j' + 1) := by omega
      rw [this]

lemma assembleGo_rebuildNamed :
    ∀ (pairs : List (List Char × List Char)) (i : Nat) (trail : List Char),
      assembleGo (i + pairs.length) (pairs.map (·.1) ++ [trail]) i =
        rebuildNamed i pairs trail := by
  intro pairs
  induction pairs with
  | nil =>
    intro i trail
    simp [assembleGo, rebuildNamed]
  | cons p ps ih =>
    intro i trail
    obtain ⟨seg, d⟩ := p
    simp only [List.map_cons, List.cons_append, assembleGo, rebuildNamed, List.length_cons]
    rw [if_pos (by omega : i < i + (ps.length + 1))]
    have hk : i + (ps.length + 1) = (i + 1) + ps.length := by omega
    rw [hk]
    simp only [List.append_eq]
    rw [ih (i + 1) trail]

end Prep

namespace Prep

/-- Did `prepare` fail with `PlaceholderOutOfRange`? -/
def isOutOfRangeFailure : Except PrepErr PreparedQueryM → Bool
  | .error (.placeholderOutOfRange _) => true
  | _ => false

end Prep

/-- C6: for a query whose text contains ordinal `$N` placeholders (in
any order, repeats allowed) over a non-empty argument list, with every
occurrence in range and every encoding succeeding, `prepare` succeeds
and: the text decomposes as segments interleaved with the occurrences
(`rebuildL`), the produced text replaces each occurrence with its
synthetic name `$p<i>` in evaluation order (`rebuildNamed`), exactly one
parameter is produced per occurrence (`values.length = pairs.length`),
and the `i`-th occurrence `$N` binds `$p<i>` to the encoded value of the
argument at the 1-based index `N` (that is, `args[N - 1]`). -/
theorem prepare_ordinal_params_c6 (q : Prep.SqlQueryM)
    (pairs : List (List Char × List Char)) (trail : List Char)
    (order : List Nat) (values : List Prep.YdbVal)
    (hargs : q.args ≠ [])
    (hscan : Prep.scanDollar q.sql.toList = (pairs, trail))
    (hpairs : pairs ≠ [])
    (horder : Prep.mapMExcept (fun p => Prep.checkIndex q.args.length p.2) pairs = .ok order)
    (hvals : Prep.mapMExcept (Prep.encodeArgAt q) order = .ok values) :
    Prep.prepare q =
      .ok ⟨(Prep.rebuildNamed 0 pairs trail).asString, Prep.paramsOf values⟩ ∧
    values.length = pairs.length ∧
    q.sql.toList = Prep.rebuildL pairs trail ∧
    (∀ i p, pairs.get? i = some p → ∃ v,
      1 ≤ Prep.parseDigits p.2 ∧
      Prep.parseDigits p.2 - 1 < q.args.length ∧
      order.get? i = some (Prep.parseDigits p.2 - 1) ∧
      Prep.encodeArgAt q (Prep.parseDigits p.2 - 1) = .ok v ∧
      (Prep.paramsOf values).get? i = some (Prep.paramName i, v)) := by
  have hlen1 : order.length = pairs.length := Prep.mapMExcept_ok_length _ pairs order horder
  have hlen2 : values.length = order.length := Prep.mapMExcept_ok_length _ order values hvals
  have hlen : values.length = pairs.length := hlen2.trans hlen1
  have hargs0 : ¬ q.args.length = 0 := by
    intro h
    exact hargs (List.length_eq_zero.mp h)
  have hempty : pairs.isEmpty = false := by
    cases pairs with
    | nil => exact absurd rfl hpairs
    | cons p ps => rfl
  constructor
  · rw [Prep.prepare, if_neg hargs0]
    have hext : Prep.extractSegments q.sql.toList q.args.length =
        .ok (pairs.map (·.1) ++ [trail], order) := by
      rw [Prep.extractSegments]
      simp only [hscan]
      rw [if_pos hempty, horder]
    rw [hext]
    simp only
    rw [hvals]
    simp only
    rw [hlen]
    have := Prep.assembleGo_rebuildNamed pairs 0 trail
    simp only [Nat.zero_add] at this
    rw [this]
  refine ⟨hlen, ?_, ?_⟩
  · have := Prep.scanDollar_rebuild q.sql.toList
    rw [hscan] at this
    exact this.symm
  · intro i p hpget
    obtain ⟨n, hnget, hchk⟩ := Prep.mapMExcept_ok_get _ pairs order horder i p hpget
    obtain ⟨h1, h2, h3⟩ := Prep.checkIndex_ok hchk
    obtain ⟨v, hvget, henc⟩ := Prep.mapMExcept_ok_get _ order values hvals i n hnget
    subst h2
    refine ⟨v, h1, h3, hnget, henc, ?_⟩
    rw [Prep.paramsOf, Prep.paramsOfGo_get, hvget]
    simp

/-- Witness for C6: `SELECT $2, $1, $2` over the arguments
`["a", 7]`. -/
theorem prepare_ordinal_params_c6_witness :
    Prep.prepare ⟨"SELECT $2, $1, $2", [.str "a", .num 7], none⟩ =
      .ok ⟨"SELECT $p0, $p1, $p2",
        [("$p0", .prim .utf8 (.strP "7")), ("$p1", .prim .utf8 (.strP "a")),
         ("$p2", .prim .utf8 (.strP "7"))]⟩ := by
  have h := prepare_ordinal_params_c6 ⟨"SELECT $2, $1, $2", [.str "a", .num 7], none⟩
    [("SELECT ".toList, ['2']), (", ".toList, ['1']), (", ".toList, ['2'])] []
    [1, 0, 1]
    [.prim .utf8 (.strP "7"), .prim .utf8 (.strP "a"), .prim .utf8 (.strP "7")]
    (by simp) rfl (by simp) rfl rfl
  exact h.1.trans (by rfl)

/-- Counterexample to C7 as stated: with an empty argument list,
`prepare` of a text containing the out-of-range ordinal `$1` does not
fail at all — the early empty-args return passes the text through
unchanged with no parameters. -/
theorem prepare_oor_c7_counterexample :
    Prep.prepare ⟨"SELECT $1", [], none⟩ = .ok ⟨"SELECT $1", []⟩ := rfl

/-- C7 (amended): for a query over a NON-EMPTY argument list whose text
contains an ordinal placeholder `$N` with `N = 0` or `N` greater than
the number of supplied arguments, `prepare` fails with
`PlaceholderOutOfRange` (with an empty argument list `prepare` instead
returns the text unchanged and no parameters). -/
theorem prepare_oor_c7 (q : Prep.SqlQueryM)
    (pairs : List (List Char × List Char)) (trail : List Char)
    (p : List Char × List Char)
    (hargs : q.args ≠ [])
    (hscan : Prep.scanDollar q.sql.toList = (pairs, trail))
    (hp : p ∈ pairs)
    (hbad : Prep.parseDigits p.2 = 0 ∨ q.args.length ≤ Prep.parseDigits p.2 - 1) :
    Prep.isOutOfRangeFailure (Prep.prepare q) = true ∧
    ∀ pq, Prep.prepare q ≠ .ok pq := by
  have hargs0 : ¬ q.args.length = 0 := by
    intro h
    exact hargs (List.length_eq_zero.mp h)
  have hpairs : pairs ≠ [] := by
    intro h
    rw [h] at hp
    simp at hp
  have hempty : pairs.isEmpty = false := by
    cases pairs with
    | nil => exact absurd rfl hpairs
    | cons x xs => rfl
  have hbadchk : Prep.checkIndex q.args.length p.2 =
      .error (.placeholderOutOfRange (String.mk p.2)) :=
    Prep.checkIndex_error_of_bad hbad
  cases hmm : Prep.mapMExcept (fun x => Prep.checkIndex q.args.length x.2) pairs with
  | ok order =>
    obtain ⟨b, hb⟩ := Prep.mapMExcept_ok_mem _ pairs order hmm p hp
    rw [hbadchk] at hb
    cases hb
  | error e =>
    obtain ⟨a, hmem, ha⟩ := Prep.mapMExcept_error_mem _ pairs e hmm
    have hshape := Prep.checkIndex_error_shape ha
    have hprep : Prep.prepare q = .error e := by
      rw [Prep.prepare, if_neg hargs0]
      have hext : Prep.extractSegments q.sql.toList q.args.length = .error e := by
        rw [Prep.extractSegments]
        simp only [hscan]
        rw [if_pos hempty, hmm]
      rw [hext]
    subst hshape
    rw [hprep]
    exact ⟨rfl, fun pq h => by cases h⟩

/-- Witness for C7 (amended): `SELECT $3` over a single argument fails
with `PlaceholderOutOfRange`. -/
theorem prepare_oor_c7_witness :
    Prep.isOutOfRangeFailure (Prep.prepare ⟨"SELECT $3", [.num 1], none⟩) = true :=
  (prepare_oor_c7 ⟨"SELECT $3", [.num 1], none⟩
    [("SELECT ".toList, ['3'])] [] ("SELECT ".toList, ['3'])
    (by simp) rfl (List.mem_singleton.mpr rfl) (Or.inr (by decide))).1
